import Mathlib

/-!
Verification of the Horizon dataset pipeline: the bundle writer
(`dataset/embedder.py`) and the bundle reader / trainer / exporter
(`dataset/train_lr_from_bin.py`).

A 32-bit float element is modelled by its bit pattern, a natural number
below 2^32; the bundle contract moves raw bytes and never interprets the
numeric value, so bit-level identity is what matters.
-/

namespace Horizon

/-- Little-endian byte serialization of one 32-bit element, as performed
per element by `embeddings.tofile(EMBED_OUT)` (embedder.py line 55). -/
def bytesOfNat (w : Nat) : List Nat :=
  [w % 256, w / 256 % 256, w / 65536 % 256, w / 16777216 % 256]

/-- Reassembling one element from a little-endian byte chunk, as
`np.fromfile` does for each item. -/
def wordOfBytes (bs : List Nat) : Nat :=
  bs.foldr (fun b acc => b + 256 * acc) 0

/-- `embeddings.tofile(EMBED_OUT)` (embedder.py line 55): the raw
row-major binary stream, no header, no length prefix. -/
def tofile (m : List (List Nat)) : List Nat :=
  (m.flatten.map bytesOfNat).flatten

/-- `np.fromfile(EMBEDDINGS_BIN, dtype=dtype)` (train_lr_from_bin.py
line 24): item `i` is decoded from the bytes at offsets
`[i*k, i*k + k)`; the number of items is `⌊byte_length / k⌋`, so trailing
bytes that do not fill a whole item are dropped. -/
def fromfile (s : List Nat) (k : Nat) : List Nat :=
  (List.range (s.length / k)).map (fun i => wordOfBytes ((s.drop (i * k)).take k))

/-- Splitting a flat element list into `count` rows of `dim` elements. -/
def splitRows : Nat → Nat → List Nat → List (List Nat)
  | 0, _, _ => []
  | n + 1, d, xs => xs.take d :: splitRows n d (xs.drop d)

/-- `X.reshape(num_samples, embedding_dim)` (train_lr_from_bin.py
line 25): succeeds exactly when the element count matches `count * dim`. -/
def reshape (xs : List Nat) (count dim : Nat) : Option (List (List Nat)) :=
  if xs.length = count * dim then some (splitRows count dim xs) else none

/-- The metadata document `meta.json` (embedder.py lines 62-68). -/
structure Meta where
  count : Nat
  dim : Nat
  dtype : String
  model : String
  normalized : Bool

/-- train_lr_from_bin.py line 16:
`np.float32 if meta.get("dtype", "float32") == "float32" else np.float64`.
Any dtype other than `"float32"` selects the 8-byte element type; nothing
fails. -/
def readerItemsize (meta : Meta) : Nat :=
  if meta.dtype = "float32" then 4 else 8

/-- train_lr_from_bin.py lines 24-25: read the whole stream under the
selected element size, then reshape to `(count, dim)`. -/
def loadEmbeddings (meta : Meta) (stream : List Nat) : Option (List (List Nat)) :=
  reshape (fromfile stream (readerItemsize meta)) meta.count meta.dim

def MODEL_NAME : String := "sentence-transformers/all-MiniLM-L6-v2"

def NORMALIZE : Bool := true

/-- embedder.py lines 49 and 62-68: `count` and `dim` are taken from
`embeddings.shape`, i.e. computed directly from the matrix written. -/
def writerMeta (m : List (List Nat)) (dim : Nat) : Meta :=
  { count := m.length, dim := dim, dtype := "float32",
    model := MODEL_NAME, normalized := NORMALIZE }

theorem wordOfBytes_bytesOfNat (w : Nat) (hw : w < 2 ^ 32) :
    wordOfBytes (bytesOfNat w) = w := by
  have hpow : (2 : Nat) ^ 32 = 4294967296 := by norm_num
  have hw' : w < 4294967296 := hpow ▸ hw
  have h1 : w / 256 / 256 = w / 65536 := by rw [Nat.div_div_eq_div_mul]
  have h2 : w / 65536 / 256 = w / 16777216 := by rw [Nat.div_div_eq_div_mul]
  have h3 : w / 16777216 < 256 := by omega
  simp only [bytesOfNat, wordOfBytes, List.foldr]
  omega

theorem bytesOfNat_length (w : Nat) : (bytesOfNat w).length = 4 := rfl

theorem fromfile_cons_chunk (b rest : List Nat) (k : Nat) (hk : 0 < k)
    (hb : b.length = k) :
    fromfile (b ++ rest) k = wordOfBytes b :: fromfile rest k := by
  have hlen : (b ++ rest).length / k = rest.length / k + 1 := by
    rw [List.length_append, hb, Nat.add_comm, Nat.add_div_right _ hk]
  have hdrop : ∀ i : Nat, (b ++ rest).drop ((i + 1) * k) = rest.drop (i * k) := by
    intro i
    rw [Nat.add_mul, Nat.one_mul, Nat.add_comm, ← List.drop_drop, ← hb,
      List.drop_left]
  simp only [fromfile, hlen, List.range_succ_eq_map, List.map_cons, List.map_map]
  rw [List.cons_eq_cons]
  constructor
  · rw [Nat.zero_mul, List.drop_zero, ← hb, List.take_left]
  · apply List.map_congr_left
    intro i _
    simp only [Function.comp_apply, Nat.succ_eq_add_one, hdrop i]

theorem fromfile_flatten (ws : List Nat) (hw : ∀ w ∈ ws, w < 2 ^ 32) :
    fromfile ((ws.map bytesOfNat).flatten) 4 = ws := by
  induction ws with
  | nil => rfl
  | cons w ws ih =>
    rw [List.map_cons, List.flatten_cons,
      fromfile_cons_chunk _ _ 4 (by omega) (bytesOfNat_length w),
      wordOfBytes_bytesOfNat w (hw w (List.mem_cons_self w ws)),
      ih (fun x hx => hw x (List.mem_cons_of_mem w hx))]

theorem fromfile_length (s : List Nat) (k : Nat) :
    (fromfile s k).length = s.length / k := by
  simp [fromfile]

theorem splitRows_flatten (m : List (List Nat)) (d : Nat)
    (hd : ∀ r ∈ m, r.length = d) :
    splitRows m.length d m.flatten = m := by
  induction m with
  | nil => rfl
  | cons r rs ih =>
    have hr : r.length = d := hd r (List.mem_cons_self r rs)
    have htake : (r ++ rs.flatten).take d = r := by
      rw [← hr]
      exact List.take_left r rs.flatten
    have hdrop : (r ++ rs.flatten).drop d = rs.flatten := by
      rw [← hr]
      exact List.drop_left r rs.flatten
    simp only [List.length_cons, List.flatten_cons, splitRows, htake, hdrop]
    rw [ih (fun x hx => hd x (List.mem_cons_of_mem r hx))]

theorem flatten_length_uniform (m : List (List Nat)) (d : Nat)
    (hd : ∀ r ∈ m, r.length = d) :
    m.flatten.length = m.length * d := by
  induction m with
  | nil => simp
  | cons r rs ih =>
    simp only [List.flatten_cons, List.length_append, List.length_cons,
      hd r (List.mem_cons_self r rs),
      ih (fun x hx => hd x (List.mem_cons_of_mem r hx))]
    ring

/-- C1: writing a bundle (raw row-major stream plus metadata carrying the
matrix count and dim) and reading it back through the reader reconstructs
the matrix bit-identically. -/
theorem bundle_roundtrip (m : List (List Nat)) (dim : Nat)
    (hdim : ∀ r ∈ m, r.length = dim)
    (hval : ∀ r ∈ m, ∀ w ∈ r, w < 2 ^ 32) :
    loadEmbeddings (writerMeta m dim) (tofile m) = some m := by
  have hjoin : ∀ w ∈ m.flatten, w < 2 ^ 32 := by
    intro w hw
    obtain ⟨r, hr, hwr⟩ := List.mem_flatten.mp hw
    exact hval r hr w hwr
  have h4 : readerItemsize (writerMeta m dim) = 4 := rfl
  show reshape (fromfile (tofile m) (readerItemsize (writerMeta m dim)))
    m.length dim = some m
  rw [h4, tofile, fromfile_flatten m.flatten hjoin, reshape,
    if_pos (flatten_length_uniform m dim hdim), splitRows_flatten m dim hdim]

/-- C1 witness: round trip at a concrete 2×2 matrix. -/
theorem bundle_roundtrip_witness :
    loadEmbeddings (writerMeta [[1, 2], [3, 4]] 2) (tofile [[1, 2], [3, 4]]) =
      some [[1, 2], [3, 4]] :=
  bundle_roundtrip [[1, 2], [3, 4]] 2 (by decide) (by decide)

/-- A metadata document with an unsupported dtype. -/
def metaF16 : Meta :=
  { count := 1, dim := 1, dtype := "float16", model := "m", normalized := false }

/-- C2 counterexample: with `dtype = "float16"` the reader does not fail;
it decodes the stream under the substituted 8-byte element type and
returns a matrix. -/
theorem reader_dtype_no_failure :
    metaF16.dtype ≠ "float32" ∧
    loadEmbeddings metaF16 [7, 0, 0, 0, 0, 0, 0, 0] = some [[7]] := by
  constructor
  · decide
  · rfl

/-- C2 amended: any dtype other than `"float32"` selects an 8-byte element
size, and whenever the stream length is `count * dim * 8` the reader
succeeds under that substituted element type instead of failing. -/
theorem reader_dtype_substitution (meta : Meta) (stream : List Nat)
    (hd : meta.dtype ≠ "float32")
    (hlen : stream.length = meta.count * meta.dim * 8) :
    readerItemsize meta = 8 ∧
    loadEmbeddings meta stream =
      some (splitRows meta.count meta.dim (fromfile stream 8)) := by
  have h8 : readerItemsize meta = 8 := if_neg hd
  refine ⟨h8, ?_⟩
  rw [loadEmbeddings, h8, reshape,
    if_pos (by rw [fromfile_length, hlen, Nat.mul_div_cancel _ (by omega : 0 < 8)])]

/-- C2 amended witness: a concrete `"float16"` metadata with a 1×2 matrix
of 8-byte items. -/
theorem reader_dtype_substitution_witness :
    (metaF16.dtype ≠ "float32" ∧
      ([0, 0, 0, 0, 0, 0, 0, 0] : List Nat).length = metaF16.count * metaF16.dim * 8) ∧
    (readerItemsize metaF16 = 8 ∧
      loadEmbeddings metaF16 [0, 0, 0, 0, 0, 0, 0, 0] =
        some (splitRows metaF16.count metaF16.dim (fromfile [0, 0, 0, 0, 0, 0, 0, 0] 8))) :=
  ⟨⟨by decide, by decide⟩,
    reader_dtype_substitution metaF16 [0, 0, 0, 0, 0, 0, 0, 0] (by decide) (by decide)⟩

/-- A well-formed float32 metadata for a 1×1 matrix. -/
def metaOne : Meta :=
  { count := 1, dim := 1, dtype := "float32", model := "m", normalized := true }

/-- C3 counterexample: a 6-byte stream does not satisfy
`byte_length = count * dim * 4 = 4`, yet the reader succeeds, silently
dropping the trailing 2 bytes that do not fill a whole element. -/
theorem reader_truncates_trailing_bytes :
    ([1, 0, 0, 0, 9, 9] : List Nat).length ≠ metaOne.count * metaOne.dim * 4 ∧
    loadEmbeddings metaOne [1, 0, 0, 0, 9, 9] = some [[1]] := by
  constructor
  · decide
  · rfl

/-- C3 amended: for a float32 bundle the reader fails exactly when the
number of complete 4-byte elements, `⌊byte_length / 4⌋`, differs from
`count * dim`; trailing bytes beyond the last complete element are
dropped before this comparison, so a corrupted byte length that still
contains the right number of whole elements is accepted. -/
theorem reader_failure_condition (meta : Meta) (stream : List Nat)
    (hd : meta.dtype = "float32") :
    loadEmbeddings meta stream = none ↔
      stream.length / 4 ≠ meta.count * meta.dim := by
  have h4 : readerItemsize meta = 4 := if_pos hd
  rw [loadEmbeddings, h4, reshape, fromfile_length]
  by_cases h : stream.length / 4 = meta.count * meta.dim
  · simp [h]
  · simp [h]

/-- C3 amended witness: an 8-byte stream against a 1×1 float32 bundle has
`8 / 4 = 2 ≠ 1` complete elements, and the reader indeed fails. -/
theorem reader_failure_condition_witness :
    metaOne.dtype = "float32" ∧
    (loadEmbeddings metaOne [1, 2, 3, 4, 5, 6, 7, 8] = none ↔
      ([1, 2, 3, 4, 5, 6, 7, 8] : List Nat).length / 4 ≠ metaOne.count * metaOne.dim) :=
  ⟨rfl, reader_failure_condition metaOne [1, 2, 3, 4, 5, 6, 7, 8] rfl⟩

/-- Batch slicing with explicit fuel (the fuel is the list length, so the
recursion is structural): one step takes the slice
`texts[start : start + B]` and continues at `start + B`. -/
def batchesAux (B : Nat) : Nat → List α → List (List α)
  | _, [] => []
  | 0, _ :: _ => []
  | fuel + 1, x :: xs => (x :: xs.take (B - 1)) :: batchesAux B fuel (xs.drop (B - 1))

/-- embedder.py lines 36-37: `texts[start : start + BATCH_SIZE]` for
`start` in `range(0, len(texts), BATCH_SIZE)`. -/
def batches (B : Nat) (xs : List α) : List (List α) :=
  batchesAux B xs.length xs

/-- embedder.py lines 36-46: each batch is passed to `model.encode`, which
embeds its texts elementwise; the per-batch results are appended to
`all_embeddings` in loop order. -/
def batchResults (embed : α → β) (B : Nat) (texts : List α) : List (List β) :=
  (batches B texts).map (fun b => b.map embed)

/-- embedder.py line 48: `np.vstack(all_embeddings)` stacks the batch
results; it raises on an empty list of arrays. -/
def vstack (ms : List (List β)) : Option (List β) :=
  match ms with
  | [] => none
  | _ :: _ => some ms.flatten

/-- embedder.py `main` lines 36-48: slice, embed, stack. -/
def runPipeline (embed : α → β) (B : Nat) (texts : List α) : Option (List β) :=
  vstack (batchResults embed B texts)

theorem batchesAux_nil (B fuel : Nat) : batchesAux B fuel ([] : List α) = [] := by
  cases fuel <;> rfl

theorem batchesAux_flatten (B : Nat) :
    ∀ (fuel : Nat) (xs : List α), xs.length ≤ fuel →
      (batchesAux B fuel xs).flatten = xs := by
  intro fuel
  induction fuel with
  | zero =>
    intro xs hxs
    rw [List.length_eq_zero.mp (Nat.le_zero.mp hxs)]
    rfl
  | succ fuel ih =>
    intro xs hxs
    match xs with
    | [] => rfl
    | x :: rest =>
      have hrest : (rest.drop (B - 1)).length ≤ fuel := by
        rw [List.length_drop]
        simp only [List.length_cons] at hxs
        omega
      simp only [batchesAux, List.flatten_cons, ih (rest.drop (B - 1)) hrest,
        List.cons_append, List.take_append_drop]

theorem batchesAux_mem_length (B : Nat) (hB : 1 ≤ B) :
    ∀ (fuel : Nat) (xs : List α) (b : List α), b ∈ batchesAux B fuel xs →
      b.length ≤ B := by
  intro fuel
  induction fuel with
  | zero =>
    intro xs b hb
    cases xs <;> simp [batchesAux] at hb
  | succ fuel ih =>
    intro xs b hb
    match xs with
    | [] => simp [batchesAux] at hb
    | x :: rest =>
      simp only [batchesAux, List.mem_cons] at hb
      rcases hb with hb | hb
      · subst hb
        simp only [List.length_cons, List.length_take]
        omega
      · exact ih (rest.drop (B - 1)) b hb

theorem batchesAux_ne_nil (B : Nat) (fuel : Nat) (xs : List α)
    (hxs : xs ≠ []) (hfuel : 1 ≤ fuel) : batchesAux B fuel xs ≠ [] := by
  match fuel, xs with
  | fuel + 1, x :: rest => simp [batchesAux]

theorem batchesAux_dropLast_length (B : Nat) (hB : 1 ≤ B) :
    ∀ (fuel : Nat) (xs : List α) (b : List α),
      xs.length ≤ fuel → b ∈ (batchesAux B fuel xs).dropLast →
      b.length = B := by
  intro fuel
  induction fuel with
  | zero =>
    intro xs b hxs hb
    rw [List.length_eq_zero.mp (Nat.le_zero.mp hxs)] at hb
    simp [batchesAux] at hb
  | succ fuel ih =>
    intro xs b hxs hb
    match xs with
    | [] => simp [batchesAux] at hb
    | x :: rest =>
      simp only [batchesAux] at hb
      by_cases htl : batchesAux B fuel (rest.drop (B - 1)) = []
      · rw [htl] at hb
        simp at hb
      · have hrest : (rest.drop (B - 1)).length ≤ fuel := by
          rw [List.length_drop]
          simp only [List.length_cons] at hxs
          omega
        rw [List.dropLast_cons_of_ne_nil htl, List.mem_cons] at hb
        rcases hb with hb | hb
        · subst hb
          have hne : rest.drop (B - 1) ≠ [] := by
            intro hcontra
            exact htl (by rw [hcontra, batchesAux_nil])
          have hlen : 0 < rest.length - (B - 1) := by
            have := List.length_pos.mpr hne
            rw [List.length_drop] at this
            exact this
          simp only [List.length_cons, List.length_take]
          omega
        · exact ih (rest.drop (B - 1)) b hrest hb

/-- C4: for batch size `B ≥ 1` the pipeline slices the texts into
consecutive batches of at most `B` elements, every batch except possibly
the last being exactly `B` long; concatenating the per-batch embeddings
in loop order yields exactly the elementwise embedding of the input
sequence, so row `i` of the result is the embedding of text `i`. -/
theorem batch_order_preservation (embed : α → β) (B : Nat) (hB : 1 ≤ B)
    (texts : List α) :
    (batches B texts).flatten = texts ∧
    (∀ b ∈ batches B texts, b.length ≤ B) ∧
    (∀ b ∈ (batches B texts).dropLast, b.length = B) ∧
    (batchResults embed B texts).flatten = texts.map embed ∧
    ∀ i : Nat, (batchResults embed B texts).flatten[i]? = (texts[i]?).map embed := by
  have hflat : (batches B texts).flatten = texts :=
    batchesAux_flatten B texts.length texts le_rfl
  have hres : (batchResults embed B texts).flatten = texts.map embed := by
    rw [batchResults, ← List.map_flatten, hflat]
  refine ⟨hflat, ?_, ?_, hres, ?_⟩
  · intro b hb
    exact batchesAux_mem_length B hB texts.length texts b hb
  · intro b hb
    exact batchesAux_dropLast_length B hB texts.length texts b le_rfl hb
  · intro i
    rw [hres]
    exact List.getElem?_map embed texts i

/-- C4 witness: batch size 2 over five texts embedded by `·.length`. -/
theorem batch_order_preservation_witness :
    (1 ≤ 2) ∧
    ((batches 2 ["aa", "b", "ccc", "d", "ee"]).flatten = ["aa", "b", "ccc", "d", "ee"] ∧
      (∀ b ∈ batches 2 ["aa", "b", "ccc", "d", "ee"], b.length ≤ 2) ∧
      (∀ b ∈ (batches 2 ["aa", "b", "ccc", "d", "ee"]).dropLast, b.length = 2) ∧
      (batchResults String.length 2 ["aa", "b", "ccc", "d", "ee"]).flatten =
        ["aa", "b", "ccc", "d", "ee"].map String.length ∧
      ∀ i : Nat, (batchResults String.length 2 ["aa", "b", "ccc", "d", "ee"]).flatten[i]? =
        ((["aa", "b", "ccc", "d", "ee"])[i]?).map String.length) :=
  ⟨by decide, batch_order_preservation String.length 2 (by decide) ["aa", "b", "ccc", "d", "ee"]⟩

/-- Python string comparison as used by `sorted`: lexicographic on the
sequence of code points. -/
def strLe (a b : String) : Prop := a.data ≤ b.data

instance : DecidableRel strLe :=
  fun a b => inferInstanceAs (Decidable (a.data ≤ b.data))

instance : IsTrans String strLe := ⟨fun _ _ _ hab hbc => le_trans hab hbc⟩

instance : IsAntisymm String strLe := ⟨fun _ _ hab hba => String.ext (le_antisymm hab hba)⟩

instance : IsTotal String strLe := ⟨fun a b => le_total a.data b.data⟩

/-- train_lr_from_bin.py line 35: `sorted(list(set(labels_raw)))` for
string labels: the distinct labels in lexicographic ascending order. -/
def uniqueSorted (l : List String) : List String :=
  List.insertionSort strLe l.dedup

/-- Python's `enumerate` paired into a dictionary: entry `(lbl, i)` for
the `i`-th element, starting at `k`. -/
def enumFrom (k : Int) : List String → List (String × Int)
  | [] => []
  | s :: rest => (s, k) :: enumFrom (k + 1) rest

/-- train_lr_from_bin.py line 36:
`label_to_id = {lbl: i for i, lbl in enumerate(unique_labels)}`. -/
def label_to_id (l : List String) : List (String × Int) :=
  enumFrom 0 (uniqueSorted l)

/-- The numpy `int32` cast applied by `np.array(..., dtype=np.int32)`:
wrap into `[-2^31, 2^31)`. -/
def toInt32 (n : Int) : Int := (n + 2 ^ 31) % 2 ^ 32 - 2 ^ 31

/-- train_lr_from_bin.py line 37:
`y = np.array([label_to_id[lbl] for lbl in labels_raw], dtype=np.int32)`. -/
def encodeY (l : List String) : List Int :=
  l.map (fun s => toInt32 (((label_to_id l).lookup s).getD 0))

theorem uniqueSorted_perm_eq (l l' : List String) (hp : l.Perm l') :
    uniqueSorted l = uniqueSorted l' := by
  have h1 : (uniqueSorted l).Perm (uniqueSorted l') :=
    ((List.perm_insertionSort strLe l.dedup).trans (hp.dedup)).trans
      (List.perm_insertionSort strLe l'.dedup).symm
  exact List.eq_of_perm_of_sorted h1
    (List.sorted_insertionSort strLe l.dedup)
    (List.sorted_insertionSort strLe l'.dedup)

theorem uniqueSorted_nodup (l : List String) : (uniqueSorted l).Nodup :=
  ((List.perm_insertionSort strLe l.dedup).nodup_iff).mpr l.nodup_dedup

theorem uniqueSorted_sorted (l : List String) : (uniqueSorted l).Sorted strLe :=
  List.sorted_insertionSort strLe l.dedup

theorem mem_uniqueSorted (l : List String) (s : String) (hs : s ∈ l) :
    s ∈ uniqueSorted l := by
  rw [uniqueSorted, (List.perm_insertionSort strLe l.dedup).mem_iff, List.mem_dedup]
  exact hs

theorem enumFrom_lookup :
    ∀ (u : List String), u.Nodup → ∀ (k : Int) (i : Nat) (hi : i < u.length),
      (enumFrom k u).lookup (u.get ⟨i, hi⟩) = some (k + i)
  | [], _, _, i, hi => absurd hi (by simp)
  | s :: rest, _, k, 0, _ => by
    simp [enumFrom, List.lookup, List.get]
  | s :: rest, hu, k, i + 1, hi => by
    have hi' : i < rest.length := by simpa using hi
    have hne : rest.get ⟨i, hi'⟩ ≠ s := by
      intro he
      exact (List.nodup_cons.mp hu).1 (he ▸ rest.get_mem i hi')
    have hbeq : (rest.get ⟨i, hi'⟩ == s) = false := beq_eq_false_iff_ne.mpr hne
    show (enumFrom k (s :: rest)).lookup (rest.get ⟨i, hi'⟩) = some (k + (↑i + 1))
    simp only [enumFrom, List.lookup, hbeq]
    rw [enumFrom_lookup rest (List.nodup_cons.mp hu).2 (k + 1) i hi']
    congr 1
    omega

/-- C5: the label encoder assigns id 0 to the lexicographically smallest
distinct label and increasing ids along the sorted distinct labels, and
the resulting label-to-integer map depends only on the multiset of
labels, not on their order of appearance. -/
theorem label_encoder_deterministic (l l' : List String) (hp : l.Perm l') :
    label_to_id l = label_to_id l' ∧
    (∀ m, (uniqueSorted l).head? = some m →
      (label_to_id l).lookup m = some 0 ∧ ∀ s ∈ l, strLe m s) ∧
    ∀ i (hi : i < (uniqueSorted l).length),
      (label_to_id l).lookup ((uniqueSorted l).get ⟨i, hi⟩) = some (i : Int) := by
  refine ⟨?_, ?_, ?_⟩
  · rw [label_to_id, label_to_id, uniqueSorted_perm_eq l l' hp]
  · intro m hm
    obtain ⟨rest, hrest⟩ : ∃ rest, uniqueSorted l = m :: rest := by
      cases h : uniqueSorted l with
      | nil => rw [h] at hm; simp at hm
      | cons a t =>
        rw [h] at hm
        simp only [List.head?_cons, Option.some.injEq] at hm
        exact ⟨t, by rw [hm]⟩
    constructor
    · have h0 : (0 : Nat) < (uniqueSorted l).length := by
        rw [hrest]; simp
      have := enumFrom_lookup (uniqueSorted l) (uniqueSorted_nodup l) 0 0 h0
      have hget : (uniqueSorted l).get ⟨0, h0⟩ = m := by
        have hgen : ∀ (u : List String), u = m :: rest →
            ∀ hu : 0 < u.length, u.get ⟨0, hu⟩ = m := by
          intro u hu hlen
          subst hu
          rfl
        exact hgen _ hrest h0
      rw [hget] at this
      simpa [label_to_id] using this
    · intro s hs
      have hmem : s ∈ uniqueSorted l := mem_uniqueSorted l s hs
      have hsorted := uniqueSorted_sorted l
      rw [hrest] at hmem hsorted
      rcases List.mem_cons.mp hmem with he | ht
      · rw [he]
        exact le_refl m.data
      · exact List.rel_of_sorted_cons hsorted s ht
  · intro i hi
    have := enumFrom_lookup (uniqueSorted l) (uniqueSorted_nodup l) 0 i hi
    simpa [label_to_id] using this

/-- C5 witness: two permutations of the multiset `{"b", "a", "b"}`. -/
theorem label_encoder_deterministic_witness :
    (["b", "a", "b"].Perm ["a", "b", "b"]) ∧
    (label_to_id ["b", "a", "b"] = label_to_id ["a", "b", "b"] ∧
      (∀ m, (uniqueSorted ["b", "a", "b"]).head? = some m →
        (label_to_id ["b", "a", "b"]).lookup m = some 0 ∧
          ∀ s ∈ ["b", "a", "b"], strLe m s) ∧
      ∀ i (hi : i < (uniqueSorted ["b", "a", "b"]).length),
        (label_to_id ["b", "a", "b"]).lookup
          ((uniqueSorted ["b", "a", "b"]).get ⟨i, hi⟩) = some (i : Int)) :=
  ⟨by decide, label_encoder_deterministic ["b", "a", "b"] ["a", "b", "b"] (by decide)⟩

/-- A value in the labels document: JSON strings or JSON integers
(train_lr_from_bin.py branches on the runtime type at line 34). -/
inductive RawLabel where
  | str (s : String)
  | int (n : Int)
deriving DecidableEq

/-- The string payload of a label, when it is a string. -/
def asStr : RawLabel → Option String
  | RawLabel.str s => some s
  | RawLabel.int _ => none

/-- The integer payload of a label, when it is an integer. -/
def asInt : RawLabel → Option Int
  | RawLabel.str _ => none
  | RawLabel.int n => some n

/-- train_lr_from_bin.py lines 33-41: convert the labels document to the
label-to-id map and the integer vector `y`. An empty document fails
(`labels_raw[0]` raises IndexError). If the first label is a string, the
string branch builds ids by enumerating the sorted distinct labels; if it
is an integer, the keys are stringified but each id is the raw integer
itself. A mixed-type document fails when Python's `sorted` compares
incomparable values. -/
def encodeLabels (raw : List RawLabel) : Option (List (String × Int) × List Int) :=
  match raw with
  | [] => none
  | RawLabel.str _ :: _ =>
    if ∀ r ∈ raw, (asStr r).isSome then
      let strs := raw.filterMap asStr
      some (label_to_id strs, encodeY strs)
    else none
  | RawLabel.int _ :: _ =>
    if ∀ r ∈ raw, (asInt r).isSome then
      let ints := raw.filterMap asInt
      some ((List.insertionSort (· ≤ ·) ints.dedup).map (fun n => (toString n, n)),
        ints.map toInt32)
    else none

/-- train_lr_from_bin.py lines 10-41 viewed as one load stage: the labels
document is decoded while the metadata document is also in scope; the
code never compares `len(labels_raw)` with `meta["count"]`. -/
def loadLabelStage (_meta : Meta) (raw : List RawLabel) :
    Option (List (String × Int) × List Int) :=
  encodeLabels raw

/-- The exported parameter document `model_weights.json`
(train_lr_from_bin.py lines 57-64). Weight and bias entries are float32
bit patterns, like the bundle elements. -/
structure ExportDoc where
  num_classes : Nat
  num_features : Nat
  classes : List String
  ltid : List (String × Int)
  weights : List (List Nat)
  bias : List Nat

/-- train_lr_from_bin.py lines 57-64: the export dictionary is built
unconditionally from whatever the fit produced; `num_classes` comes from
the class list and `num_features` from the metadata dim, with no
comparison against the weight matrix shape. -/
def exportModel (unique_labels : List String) (ltid : List (String × Int))
    (embedding_dim : Nat) (coef : List (List Nat)) (intercept : List Nat) : ExportDoc :=
  { num_classes := unique_labels.length, num_features := embedding_dim,
    classes := unique_labels, ltid := ltid, weights := coef, bias := intercept }

/-- embedder.py lines 24-26 and 58-60: label cells pass through
`.astype(str)` before `json.dump`, so the labels document the writer
produces holds exactly the given strings. -/
def writerLabelsDoc (labels : List String) : List RawLabel :=
  labels.map RawLabel.str

/-- A float32 metadata document whose count is 2. -/
def metaTwo : Meta :=
  { count := 2, dim := 1, dtype := "float32", model := "m", normalized := true }

/-- C7 counterexample: a three-label document against metadata with
`count = 2`: the label stage still succeeds, building the encoding and
`y` without detecting the mismatch. -/
theorem labels_mismatch_not_detected :
    [RawLabel.str "a", RawLabel.str "b", RawLabel.str "a"].length ≠ metaTwo.count ∧
    (loadLabelStage metaTwo
      [RawLabel.str "a", RawLabel.str "b", RawLabel.str "a"]).isSome = true := by
  decide

/-- C7 amended: the reader never validates the label count against the
metadata; the outcome of the label stage is independent of the metadata
document entirely, and a mismatch can only surface later inside the
external `clf.fit` call. -/
theorem labels_count_never_validated (m₁ m₂ : Meta) (raw : List RawLabel) :
    loadLabelStage m₁ raw = loadLabelStage m₂ raw := rfl

/-- C8 counterexample: for the integer labels `[10, 2]` the exported map
pairs each stringified label with the original integer itself
(`"10" ↦ 10`), whereas an id derived from sorted-string order of the
distinct labels would assign `"10" ↦ 0` (since `"10" < "2"`
lexicographically). -/
theorem int_labels_ids_not_sorted_string :
    encodeLabels [RawLabel.int 10, RawLabel.int 2] =
      some ([("2", 2), ("10", 10)], [10, 2]) ∧
    ([("2", (2 : Int)), ("10", 10)] : List (String × Int)).lookup "10" = some 10 ∧
    (label_to_id ["10", "2"]).lookup "10" = some 0 ∧
    (10 : Int) ≠ 0 := by
  decide

/-- C8 amended: integer labels are coerced to string keys, but the id
paired with each key is the original integer label itself (an identity
map over the distinct labels, listed in numeric order), not an index
derived from sorted-string order; `y` is the raw integer vector under the
int32 cast. -/
theorem int_labels_identity_ids (ints : List Int) (i0 : Int) (rest : List Int)
    (hcons : ints = i0 :: rest) :
    encodeLabels (ints.map RawLabel.int) =
      some ((List.insertionSort (· ≤ ·) ints.dedup).map (fun n => (toString n, n)),
        ints.map toInt32) := by
  subst hcons
  have hall : ∀ r ∈ RawLabel.int i0 :: rest.map RawLabel.int, (asInt r).isSome = true := by
    intro r hr
    rcases List.mem_cons.mp hr with he | ht
    · rw [he]; rfl
    · obtain ⟨n, _, hn⟩ := List.mem_map.mp ht
      rw [← hn]; rfl
  have hfm : (RawLabel.int i0 :: rest.map RawLabel.int).filterMap asInt = i0 :: rest := by
    rw [show RawLabel.int i0 :: rest.map RawLabel.int
        = (i0 :: rest).map RawLabel.int from rfl, List.filterMap_map]
    simp [Function.comp_def, asInt]
  show (if ∀ r ∈ RawLabel.int i0 :: rest.map RawLabel.int, (asInt r).isSome then
      some ((List.insertionSort (· ≤ ·)
          ((RawLabel.int i0 :: rest.map RawLabel.int).filterMap asInt).dedup).map
          (fun n => (toString n, n)),
        ((RawLabel.int i0 :: rest.map RawLabel.int).filterMap asInt).map toInt32)
    else none) = _
  rw [if_pos hall, hfm]

/-- C8 amended witness: the amended description at the labels `[10, 2]`. -/
theorem int_labels_identity_ids_witness :
    ([10, 2] : List Int) = 10 :: [2] ∧
    encodeLabels (([10, 2] : List Int).map RawLabel.int) =
      some ((List.insertionSort (· ≤ ·) ([10, 2] : List Int).dedup).map
          (fun n => (toString n, n)),
        ([10, 2] : List Int).map toInt32) :=
  ⟨rfl, int_labels_identity_ids [10, 2] 10 [2] rfl⟩

/-- C6 counterexample: with two classes but a one-row weight matrix and
an empty bias every stated invariant fails, yet the exporter still
produces the document. -/
theorem exporter_no_shape_check :
    (exportModel ["a", "b"] [] 3 [[0]] []).num_classes = 2 ∧
    (exportModel ["a", "b"] [] 3 [[0]] []).weights.length = 1 ∧
    (exportModel ["a", "b"] [] 3 [[0]] []).bias.length = 0 ∧
    (1 : Nat) ≠ 2 := by
  decide

/-- C6 amended: the exporter checks nothing before export: for every
input it proceeds, copying the weight matrix and bias unchanged and
deriving `num_classes` from the class list and `num_features` from the
metadata dim alone, even when the weight shape disagrees with both. -/
theorem exporter_unconditional (cls : List String) (ltid : List (String × Int))
    (dim : Nat) (coef : List (List Nat)) (intercept : List Nat) :
    (exportModel cls ltid dim coef intercept).weights = coef ∧
    (exportModel cls ltid dim coef intercept).bias = intercept ∧
    (exportModel cls ltid dim coef intercept).num_classes = cls.length ∧
    (exportModel cls ltid dim coef intercept).num_features = dim ∧
    (exportModel cls ltid dim coef intercept).classes = cls :=
  ⟨rfl, rfl, rfl, rfl, rfl⟩

/-- C9 counterexample: on the empty corpus the pipeline does not produce
an empty bundle: `np.vstack` over the empty list of batch results
fails. -/
theorem empty_corpus_pipeline_fails :
    runPipeline (fun _ : String => ([0] : List Nat)) 256 [] = none := rfl

/-- C9 amended: for N = 0 the writer pipeline fails at `np.vstack`, so no
bundle is written, and the classifier script fails on an empty labels
document when indexing `labels_raw[0]` — before any zero-class export
could even be attempted. -/
theorem empty_corpus_behaviour :
    (∀ (embed : String → List Nat) (B : Nat), runPipeline embed B [] = none) ∧
    encodeLabels [] = none :=
  ⟨fun _ _ => rfl, rfl⟩

/-- C10: every labels document the writer produces contains only strings,
and on any such nonempty document the reader's string branch applies:
the output is exactly the string-branch encoding, so the integer-label
branch is unreachable for writer-produced bundles. (The writer never
produces an empty document together with a bundle: on an empty corpus it
fails before writing, see the empty-corpus theorems.) -/
theorem writer_labels_string_branch (labels : List String) (hne : labels ≠ []) :
    (∀ r ∈ writerLabelsDoc labels, (asStr r).isSome = true) ∧
    encodeLabels (writerLabelsDoc labels) =
      some (label_to_id labels, encodeY labels) := by
  constructor
  · intro r hr
    obtain ⟨s, _, hs⟩ := List.mem_map.mp hr
    rw [← hs]; rfl
  · match labels, hne with
    | s :: rest, _ =>
      have hall : ∀ r ∈ RawLabel.str s :: rest.map RawLabel.str,
          (asStr r).isSome = true := by
        intro r hr
        rcases List.mem_cons.mp hr with he | ht
        · rw [he]; rfl
        · obtain ⟨x, _, hx⟩ := List.mem_map.mp ht
          rw [← hx]; rfl
      have hfm : (RawLabel.str s :: rest.map RawLabel.str).filterMap asStr
          = s :: rest := by
        rw [show RawLabel.str s :: rest.map RawLabel.str
            = (s :: rest).map RawLabel.str from rfl, List.filterMap_map]
        simp [Function.comp_def, asStr]
      show (if ∀ r ∈ RawLabel.str s :: rest.map RawLabel.str, (asStr r).isSome then
          some (label_to_id ((RawLabel.str s :: rest.map RawLabel.str).filterMap asStr),
            encodeY ((RawLabel.str s :: rest.map RawLabel.str).filterMap asStr))
        else none) = _
      rw [if_pos hall, hfm]

/-- C10 witness: the writer document for the labels `["b", "a"]`. -/
theorem writer_labels_string_branch_witness :
    (["b", "a"] ≠ ([] : List String)) ∧
    ((∀ r ∈ writerLabelsDoc ["b", "a"], (asStr r).isSome = true) ∧
      encodeLabels (writerLabelsDoc ["b", "a"]) =
        some (label_to_id ["b", "a"], encodeY ["b", "a"])) :=
  ⟨by decide, writer_labels_string_branch ["b", "a"] (by decide)⟩

end Horizon
